import Mathlib

/-!
Verification of the Iris carrier/relay core: a shallow embedding of
`proto/carrier/heart.go` (carrier heartbeat handlers and the `gobber`
datagram codec) and `service/relay/relay.go` (relay handshake and the
iris overlay subscription bookkeeping), with theorems about the
behaviour the specification ascribes to them.

Overlay node and topic identifiers are `math/big` integers in Go; in
this system they are non-negative overlay addresses, so they are
embedded as `ℕ`.  The overlay address width `config.OverlaySpace` is a
configuration constant not part of the embedded sources, so it appears
as a parameter `S` throughout.
-/

namespace IrisCore

/-! ## Decimal strings of `math/big` integers

`carrier.Beat` keys its report map by `id.String()` and re-parses the
key with `new(big.Int).SetString(sid, 10)`.  The decimal string of a
non-negative `big.Int` is modelled by its little-endian digit list
(`goDigits`, with `"0"` rendered as `[0]` so that the string is never
empty), and `SetString` base 10 on such strings by `goParse`, which
accepts exactly the non-empty lists of decimal digits. -/

/-- Digit-list model of `big.Int.String()` for a non-negative id. -/
def goDigits (n : ℕ) : List ℕ :=
  if n = 0 then [0] else Nat.digits 10 n

/-- Digit-list model of `new(big.Int).SetString(s, 10)` on non-negative
decimal strings: parsing succeeds exactly on non-empty all-digit
strings. -/
def goParse (ds : List ℕ) : Option ℕ :=
  if ds.isEmpty then none
  else if ds.all (fun d => d < 10) then some (Nat.ofDigits 10 ds)
  else none

theorem goParse_goDigits (n : ℕ) : goParse (goDigits n) = some n := by
  unfold goDigits goParse
  by_cases h : n = 0
  · subst h; simp
  · have hne : Nat.digits 10 n ≠ [] := by
      simpa [Nat.digits_ne_nil_iff_ne_zero] using h
    have hlt : ∀ d ∈ Nat.digits 10 n, d < 10 := fun d hd =>
      Nat.digits_lt_base (by norm_num) hd
    simp only [if_neg h]
    rw [if_neg (by simpa [List.isEmpty_iff] using hne)]
    rw [if_pos (by simpa using hlt)]
    simp [Nat.ofDigits_digits]

theorem goDigits_injective : Function.Injective goDigits := by
  intro a b hab
  have := goParse_goDigits a
  rw [hab, goParse_goDigits b] at this
  exact (Option.some_injective ℕ this).symm

/-! ## Monitor keys

`carrier.monitor` registers the pair `(topic, node)` with the heart
under `id = (topic << S) + node` (`heart.go:38-41`); `carrier.Dead`
splits an id back as `topic = id >> S`, `node = id - (topic << S)`
(`heart.go:98-100`). -/

/-- `carrier.monitor`'s key: `new(big.Int).Add(new(big.Int).Lsh(topic, S), node)`. -/
def monitorKey (S topic node : ℕ) : ℕ :=
  topic * 2 ^ S + node

/-- `carrier.Dead`'s topic part: `new(big.Int).Rsh(id, S)`. -/
def splitTopic (S id : ℕ) : ℕ :=
  id / 2 ^ S

/-- `carrier.Dead`'s node part: `new(big.Int).Sub(id, new(big.Int).Lsh(topic, S))`. -/
def splitNode (S id : ℕ) : ℕ :=
  id - splitTopic S id * 2 ^ S

theorem splitTopic_monitorKey (S topic node : ℕ) (h : node < 2 ^ S) :
    splitTopic S (monitorKey S topic node) = topic := by
  unfold splitTopic monitorKey
  rw [mul_comm, Nat.mul_add_div (Nat.pos_pow_of_pos S (by norm_num))]
  simp [Nat.div_eq_of_lt h]

theorem splitNode_monitorKey (S topic node : ℕ) (h : node < 2 ^ S) :
    splitNode S (monitorKey S topic node) = node := by
  unfold splitNode
  rw [splitTopic_monitorKey S topic node h]
  unfold monitorKey
  omega

/-- C5: the monitor-key encoding used by `carrier.monitor` and the split
used by `carrier.Dead` round-trip, and distinct `(topic, node)` pairs get
distinct monitor keys, whenever the node part fits in the overlay
address width. -/
theorem monitorKey_roundtrip_and_injective (S topic node : ℕ) (h : node < 2 ^ S) :
    splitTopic S (monitorKey S topic node) = topic ∧
    splitNode S (monitorKey S topic node) = node ∧
    (∀ t n, n < 2 ^ S → monitorKey S t n = monitorKey S topic node →
      t = topic ∧ n = node) := by
  refine ⟨splitTopic_monitorKey S topic node h, splitNode_monitorKey S topic node h, ?_⟩
  intro t n hn heq
  have ht : splitTopic S (monitorKey S t n) = t := splitTopic_monitorKey S t n hn
  have hd : splitNode S (monitorKey S t n) = n := splitNode_monitorKey S t n hn
  rw [heq, splitTopic_monitorKey S topic node h] at ht
  rw [heq, splitNode_monitorKey S topic node h] at hd
  exact ⟨ht.symm, hd.symm⟩

/-! ## Carrier death events

`carrier.Dead` (`heart.go:97-122`): the dead id is split into topic and
node parts; the topic is looked up in the carrier's topic map (keyed in
Go by the topic id's decimal string, which `goDigits_injective` shows
identifies the id).  If found and the node part equals the topic's
parent, the id is unmonitored from the heart and the topic re-owned to
`nil`; if found otherwise, the event is handled as an unsubscribe of the
node from the topic; if the topic is gone, only a log line is emitted. -/

/-- The slice of per-topic state `carrier.Dead` consults: `top.Parent()`. -/
structure CarrierTopic where
  parent : Option ℕ
  deriving DecidableEq

/-- The carrier's topic map, as an association list keyed by topic id. -/
def topicsLookup : List (ℕ × CarrierTopic) → ℕ → Option CarrierTopic
  | [], _ => none
  | (k, t) :: rest, key => if k = key then some t else topicsLookup rest key

/-- The action `carrier.Dead` takes on a death event. -/
inductive DeadAction where
  | reownRoot (unmonitored : ℕ)
  | unsub (node topic : ℕ)
  | staleTopic (topic : ℕ)
  deriving DecidableEq

/-- `carrier.Dead`: split the id, look the topic up, then either
unmonitor the id and `Reown(nil)` (dead parent), or
`handleUnsubscribe(node, topic, false)` (dead child), or log a stale
topic. -/
def carrierDead (S : ℕ) (topics : List (ℕ × CarrierTopic)) (id : ℕ) : DeadAction :=
  let topic := splitTopic S id
  let node := splitNode S id
  match topicsLookup topics topic with
  | some top =>
    match top.parent with
    | some p => if p = node then .reownRoot id else .unsub node topic
    | none => .unsub node topic
  | none => .staleTopic topic

/-- C3: for a death event `id`, with `topic = id >> S` and
`node = id - (topic << S)`: when the topic is present and `node` is its
parent, the carrier unmonitors `id` and re-owns the topic to `nil`; when
the topic is present and `node` is not its parent, the event is handled
as an unsubscribe of `node` from `topic`. -/
theorem carrierDead_parent_or_child (S : ℕ) (topics : List (ℕ × CarrierTopic))
    (id : ℕ) (top : CarrierTopic)
    (hfound : topicsLookup topics (splitTopic S id) = some top) :
    (top.parent = some (splitNode S id) →
      carrierDead S topics id = .reownRoot id) ∧
    (top.parent ≠ some (splitNode S id) →
      carrierDead S topics id = .unsub (splitNode S id) (splitTopic S id)) := by
  constructor
  · intro hp
    unfold carrierDead
    simp only [hfound, hp]
    simp
  · intro hp
    unfold carrierDead
    simp only [hfound]
    match hpar : top.parent with
    | some p =>
      have : p ≠ splitNode S id := by
        intro h; exact hp (by rw [hpar, h])
      simp [this]
    | none => simp

/-- Witness for C3: a two-topic map; the event id encodes topic 2,
node 3 with `S = 4`; topic 2's parent is node 3, so the action is a
reown. -/
theorem carrierDead_parent_or_child_witness :
    topicsLookup [(7, ⟨none⟩), (2, ⟨some 3⟩)] (splitTopic 4 35) = some ⟨some 3⟩ ∧
    ((⟨some 3⟩ : CarrierTopic).parent = some (splitNode 4 35) →
      carrierDead 4 [(7, ⟨none⟩), (2, ⟨some 3⟩)] 35 = .reownRoot 35) ∧
    ((⟨some 3⟩ : CarrierTopic).parent ≠ some (splitNode 4 35) →
      carrierDead 4 [(7, ⟨none⟩), (2, ⟨some 3⟩)] 35 =
        .unsub (splitNode 4 35) (splitTopic 4 35)) :=
  ⟨by decide, carrierDead_parent_or_child 4 [(7, ⟨none⟩), (2, ⟨some 3⟩)] 35 ⟨some 3⟩ (by decide)⟩

/-- Witness for C5 at `S = 4`, `topic = 3`, `node = 5`. -/
theorem monitorKey_roundtrip_witness :
    5 < 2 ^ 4 ∧
    (splitTopic 4 (monitorKey 4 3 5) = 3 ∧
     splitNode 4 (monitorKey 4 3 5) = 5 ∧
     (∀ t n, n < 2 ^ 4 → monitorKey 4 t n = monitorKey 4 3 5 →
       t = 3 ∧ n = 5)) :=
  ⟨by decide, monitorKey_roundtrip_and_injective 4 3 5 (by decide)⟩

/-! ## The gobber datagram codec

`gobber.Gobber` (`heart.go`, package gobber) pairs a gob encoder and
decoder over the buffers `outBuf`/`inBuf` with the list `types` of
registered message types.  gob serialization itself is an external
library (the spec scopes the core to "a `Codec` capability" only), so
coder state is abstracted to the sequences of type schemas built into
each coder, and message types to numeric codes denoting the carrier's
gob-encodable message structs.

The buffer discipline matters: `Decode` runs `defer g.inBuf.Reset()`,
which fires only when the call exits (also while a panic unwinds), so a
bad frame whose failing decode did not consume all its bytes leaves a
residue in `inBuf` throughout the recovery loop.  Each recovery
`Init` writes its registration bytes after that residue, the fresh
decoder reads the residue first and errors, and
`if err := g.Init(msg); err != nil { panic(err) }` (`heart.go:211-213`)
panics instead of returning the original error.  An input datum
therefore records whether its failing decode consumes it completely. -/

/-- Input to `Gobber.Decode`: a well-formed gob frame of message type
`t` (read in full by the decoder); data the decoder rejects after
consuming it entirely, e.g. a complete frame of an unregistered type;
or data the decoder rejects part-way, leaving unconsumed bytes in
`inBuf` — e.g. a first byte like `0x81` (an out-of-range uvarint
length) followed by further malformed bytes. -/
inductive GobData where
  | frame (t : ℕ)
  | badConsumed
  | badResidue
  deriving DecidableEq

/-- Whether the failing decode of this datum leaves unconsumed bytes in
`inBuf` (the deferred `inBuf.Reset` has not run yet inside `Decode`). -/
def GobData.residue : GobData → Bool
  | .frame _ => false
  | .badConsumed => false
  | .badResidue => true

/-- `gobber.Gobber`: the registered-type list plus the schema state of
the encoder (`outEnc`) and decoder (`inDec`). -/
structure Gobber where
  types : List ℕ
  encTypes : List ℕ
  decTypes : List ℕ
  deriving DecidableEq

/-- `gobber.New()`: fresh coders, empty type list. -/
def Gobber.new : Gobber :=
  ⟨[], [], []⟩

/-- `Gobber.Init`: append the type to `types`, build the encoder state
(`outEnc.Encode`, which succeeds on the carrier's gob-encodable message
types), write the bytes into `inBuf` and decode them to build the
decoder state.  The `residue` flag says whether unconsumed bytes of a
bad frame still precede the registration bytes in `inBuf`: then the
decode inside `Init` reads the residue first and fails (`false` in the
result), with the type already appended to `types` and the encoder
state already extended. -/
def Gobber.init (g : Gobber) (residue : Bool) (msg : ℕ) : Gobber × Bool :=
  let g2 : Gobber := { g with types := g.types ++ [msg], encTypes := g.encTypes ++ [msg] }
  if residue then (g2, false)
  else ({ g2 with decTypes := g2.decTypes ++ [msg] }, true)

/-- Whether the inner `g.inDec.Decode(msg)` call succeeds on `data`:
exactly on a well-formed frame of a type whose schema the decoder
holds. -/
def Gobber.decodeOk (g : Gobber) (data : GobData) : Bool :=
  match data with
  | .frame t => g.decTypes.contains t
  | .badConsumed => false
  | .badResidue => false

/-- The recovery loop of `Gobber.Decode` (`heart.go:210-214`):
`for _, msg := range oldTypes { if err := g.Init(msg); err != nil {
panic(err) } }`.  The residue of the bad frame, if any, faces the first
`Init`; the result flag is `false` when an `Init` failed and the loop
panicked, leaving the state of the abort point. -/
def recoveryLoop : Gobber → Bool → List ℕ → Gobber × Bool
  | g, _, [] => (g, true)
  | g, residue, msg :: rest =>
    let step := g.init residue msg
    if step.2 then recoveryLoop step.1 false rest
    else (step.1, false)

/-- How a `Gobber.Decode` call ends: normal success, the original error
returned after a completed recovery, or the `panic(err)` of a failed
recovery `Init`. -/
inductive DecodeResult where
  | ok
  | errReturn
  | panicked
  deriving DecidableEq

/-- `Gobber.Decode` (`heart.go:199-221`): on success the state is
unchanged; on failure both coders are replaced by fresh ones over the
same buffers, every type in a copy of `g.types` is re-registered
through `Init` (each call appending to `types`), the saved copy is
restored into `types` and the original error returned — unless a
recovery `Init` fails on the bad frame's `inBuf` residue, in which case
the call panics at that point, before the restore. -/
def Gobber.decode (g : Gobber) (data : GobData) : Gobber × DecodeResult :=
  if g.decodeOk data then (g, .ok)
  else
    let rec2 := recoveryLoop { g with encTypes := [], decTypes := [] } data.residue g.types
    if rec2.2 then ({ rec2.1 with types := g.types }, .errReturn)
    else (rec2.1, .panicked)

/-- The gobber reached by registering `ts` in order on a fresh gobber
(each `Init` on the clean buffer succeeding). -/
def Gobber.initAll (ts : List ℕ) : Gobber :=
  ts.foldl (fun g msg => (g.init false msg).1) Gobber.new

/-- A sequence of `Decode` calls, stopping at the first one that
panics; the flag reports whether a panic occurred. -/
def runDecodes : Gobber → List GobData → Gobber × Bool
  | g, [] => (g, false)
  | g, d :: ds =>
    let step := g.decode d
    if step.2 = .panicked then (step.1, true)
    else runDecodes step.1 ds

theorem Gobber.initAll_foldl (ts : List ℕ) (g : Gobber) :
    ts.foldl (fun g msg => (g.init false msg).1) g =
      ⟨g.types ++ ts, g.encTypes ++ ts, g.decTypes ++ ts⟩ := by
  induction ts generalizing g with
  | nil => simp
  | cons t rest ih =>
    simp only [List.foldl_cons, ih]
    simp [Gobber.init]

theorem Gobber.initAll_eq (ts : List ℕ) :
    Gobber.initAll ts = ⟨ts, ts, ts⟩ := by
  unfold Gobber.initAll
  rw [Gobber.initAll_foldl]
  simp [Gobber.new]

theorem recoveryLoop_clean (L : List ℕ) (g : Gobber) :
    recoveryLoop g false L = (⟨g.types ++ L, g.encTypes ++ L, g.decTypes ++ L⟩, true) := by
  induction L generalizing g with
  | nil => simp [recoveryLoop]
  | cons m rest ih =>
    rw [recoveryLoop]
    simp only [Gobber.init]
    simp [ih]

theorem recoveryLoop_residue (g : Gobber) (m : ℕ) (rest : List ℕ) :
    recoveryLoop g true (m :: rest) =
      (⟨g.types ++ [m], g.encTypes ++ [m], g.decTypes⟩, false) := by
  rw [recoveryLoop]
  simp [Gobber.init]

/-- C1 counterexample: with type 4 registered, a failing input whose
bad frame leaves residue in `inBuf` makes `Decode` panic inside the
recovery loop instead of returning the original error: the decoder
state is left empty, with no schema re-registered. -/
theorem gobber_decode_residue_panics :
    (Gobber.initAll [4]).decodeOk .badResidue = false ∧
    ((Gobber.initAll [4]).decode .badResidue).2 = .panicked ∧
    ((Gobber.initAll [4]).decode .badResidue).2 ≠ .errReturn ∧
    ((Gobber.initAll [4]).decode .badResidue).1.decTypes = [] := by
  decide

/-- C1 amended: on a gobber holding registrations `ts`, a decode
failure whose input the decoder consumed completely (no `inBuf`
residue) rebuilds both coders, re-registers every schema of `ts` in the
original order, surfaces the original error to the caller, and leaves
the gobber able to decode any well-formed frame of a registered type;
a failing input that leaves residue panics instead (see the
counterexample). -/
theorem gobber_decode_failure_recovers (ts : List ℕ) (data : GobData)
    (hfail : (Gobber.initAll ts).decodeOk data = false)
    (hres : data.residue = false) :
    ((Gobber.initAll ts).decode data).2 = .errReturn ∧
    ((Gobber.initAll ts).decode data).1 = ⟨ts, ts, ts⟩ ∧
    (∀ t ∈ ts, (((Gobber.initAll ts).decode data).1.decode (.frame t)).2 = .ok) := by
  rw [Gobber.initAll_eq] at hfail ⊢
  have hstep : Gobber.decode ⟨ts, ts, ts⟩ data = (⟨ts, ts, ts⟩, .errReturn) := by
    unfold Gobber.decode
    rw [hfail, hres]
    simp only [Bool.false_eq_true, if_false]
    simp only [recoveryLoop_clean]
    simp
  rw [hstep]
  refine ⟨rfl, rfl, ?_⟩
  intro t ht
  unfold Gobber.decode Gobber.decodeOk
  simp [ht]

/-- Witness for C1: registrations `[4, 9]`, then a well-formed frame of
the unregistered type 7 — fully consumed, so recovery completes. -/
theorem gobber_decode_failure_recovers_witness :
    ((Gobber.initAll [4, 9]).decodeOk (.frame 7) = false ∧
     (GobData.frame 7).residue = false) ∧
    (((Gobber.initAll [4, 9]).decode (.frame 7)).2 = .errReturn ∧
     ((Gobber.initAll [4, 9]).decode (.frame 7)).1 = ⟨[4, 9], [4, 9], [4, 9]⟩ ∧
     (∀ t ∈ [4, 9], (((Gobber.initAll [4, 9]).decode (.frame 7)).1.decode (.frame t)).2 = .ok)) :=
  ⟨⟨by decide, by decide⟩, gobber_decode_failure_recovers [4, 9] (.frame 7) (by decide) (by decide)⟩

/-- C10 counterexample: with types `[4, 9]` registered, a single
residue-leaving decode failure panics after the first recovery `Init`
appended type 4 again and before `g.types = oldTypes` restores the
saved copy — the stored list is left duplicated. -/
theorem gobber_types_duplicated_on_panic :
    (Gobber.initAll [4, 9]).decodeOk .badResidue = false ∧
    ((Gobber.initAll [4, 9]).decode .badResidue).1.types = [4, 9, 4] ∧
    ((Gobber.initAll [4, 9]).decode .badResidue).1.types ≠ [4, 9] := by
  decide

theorem gobber_decode_types_of_no_panic (g : Gobber) (data : GobData)
    (h : (g.decode data).2 ≠ .panicked) : (g.decode data).1.types = g.types := by
  unfold Gobber.decode at h ⊢
  by_cases hok : g.decodeOk data
  · simp [hok]
  · simp only [hok, Bool.false_eq_true, if_false] at h ⊢
    by_cases hc : (recoveryLoop { g with encTypes := [], decTypes := [] } data.residue g.types).2
    · simp [hc]
    · simp [hc] at h

theorem runDecodes_types_of_no_panic (ds : List GobData) :
    ∀ g : Gobber, (runDecodes g ds).2 = false → (runDecodes g ds).1.types = g.types := by
  induction ds with
  | nil =>
    intro g _
    rfl
  | cons d rest ih =>
    intro g hnp2
    rw [runDecodes] at hnp2 ⊢
    by_cases hp : (g.decode d).2 = .panicked
    · rw [if_pos hp] at hnp2
      simp at hnp2
    · rw [if_neg hp] at hnp2 ⊢
      rw [ih _ hnp2]
      exact gobber_decode_types_of_no_panic g d hp

/-- C10 amended: after every `Decode` call that returns — with success
or with the original error after a completed recovery — the stored type
list equals the registration sequence in order, across any number of
decode failures; a call that panics mid-recovery aborts after `Init`
appended to the list and before the saved copy is restored, leaving an
entry duplicated (see the counterexample). -/
theorem gobber_types_stable (ts : List ℕ) (ds : List GobData)
    (hnp : (runDecodes (Gobber.initAll ts) ds).2 = false) :
    (runDecodes (Gobber.initAll ts) ds).1.types = ts := by
  rw [runDecodes_types_of_no_panic ds (Gobber.initAll ts) hnp, Gobber.initAll_eq]

/-- Witness for C10: registrations `[4, 9]`, then a failing frame of an
unregistered type, a fully-consumed garbage datagram, and a good frame;
no panic occurs and the type list is intact. -/
theorem gobber_types_stable_witness :
    (runDecodes (Gobber.initAll [4, 9]) [.frame 7, .badConsumed, .frame 4]).2 = false ∧
    (runDecodes (Gobber.initAll [4, 9]) [.frame 7, .badConsumed, .frame 4]).1.types = [4, 9] :=
  ⟨by decide, gobber_types_stable [4, 9] [.frame 7, .badConsumed, .frame 4] (by decide)⟩

/-! ## Iris overlay subscriptions

`iris.Overlay` (`relay.go`, package iris) keeps `subLive`, the live
member list of each subscribed topic, and `subLock`, the per-topic lock
map whose key set marks which topics have a subscription entry.  Both
are Go maps keyed by the topic name string; topic names are embedded as
atoms (`ℕ`), connection ids (`uint64`) as `ℕ`, and each map as an
association list with map semantics (first-match lookup, first-match
replace, delete-all). -/

/-- Topic names; `iris.Overlay` only compares them for equality. -/
abbrev TopicName := ℕ

/-- Map lookup on the embedded `subLive`. -/
def subsLookup : List (TopicName × List ℕ) → TopicName → Option (List ℕ)
  | [], _ => none
  | (k2, w) :: rest, k => if k2 = k then some w else subsLookup rest k

/-- Map assignment `m[k] = v` on the embedded `subLive`. -/
def subsSet : List (TopicName × List ℕ) → TopicName → List ℕ → List (TopicName × List ℕ)
  | [], k, v => [(k, v)]
  | (k2, w) :: rest, k, v => if k2 = k then (k, v) :: rest else (k2, w) :: subsSet rest k v

/-- Map deletion `delete(m, k)` on the embedded `subLive`. -/
def subsDel (l : List (TopicName × List ℕ)) (k : TopicName) : List (TopicName × List ℕ) :=
  l.filter (fun e => decide (e.1 ≠ k))

/-- The subscription state of `iris.Overlay`: `subLive` and the key set
of `subLock`. -/
structure IrisOverlay where
  subLive : List (TopicName × List ℕ)
  subLock : List TopicName
  deriving DecidableEq

/-- `Overlay.subscribe` (`relay.go:242-264`): if no lock entry exists
for the topic, set its member list to `[id]`, create the lock entry and
cascade to `scribe.Subscribe` (second component `true`); otherwise
append `id` to the existing member list and do not cascade. -/
def overlaySubscribe (o : IrisOverlay) (id : ℕ) (topic : TopicName) : IrisOverlay × Bool :=
  if topic ∈ o.subLock then
    let subs := (subsLookup o.subLive topic).getD []
    ({ o with subLive := subsSet o.subLive topic (subs ++ [id]) }, false)
  else
    ({ subLive := subsSet o.subLive topic [id], subLock := o.subLock ++ [topic] }, true)

/-- Result of `Overlay.unsubscribe`: the `not-subscribed` error, the
cascade into `scribe.Unsubscribe(topic)` (whose result is returned), or
a plain `nil` return. -/
inductive UnsubResult where
  | notSubscribed
  | cascade
  | ok
  deriving DecidableEq

/-- The removal loop of `Overlay.unsubscribe`: drop the first
occurrence of `id` (the loop breaks after the first match). -/
def removeFirst : List ℕ → ℕ → List ℕ
  | [], _ => []
  | x :: xs, id => if x = id then xs else x :: removeFirst xs id

/-- `Overlay.unsubscribe` (`relay.go:268-309`): error if no lock entry;
otherwise remove the first occurrence of `id` from the member list and
write the list back; error if nothing was removed; if the list emptied,
delete the topic from both maps and cascade to `scribe.Unsubscribe`. -/
def overlayUnsubscribe (o : IrisOverlay) (id : ℕ) (topic : TopicName) :
    IrisOverlay × UnsubResult :=
  if topic ∈ o.subLock then
    let subs := (subsLookup o.subLive topic).getD []
    let subs2 := removeFirst subs id
    let o1 : IrisOverlay := { o with subLive := subsSet o.subLive topic subs2 }
    if id ∉ subs then (o1, .notSubscribed)
    else if subs2 = [] then
      ({ subLive := subsDel o1.subLive topic,
         subLock := o.subLock.filter (fun t => decide (t ≠ topic)) }, .cascade)
    else (o1, .ok)
  else (o, .notSubscribed)

theorem subsLookup_subsSet (l : List (TopicName × List ℕ)) (k k2 : TopicName)
    (v : List ℕ) :
    subsLookup (subsSet l k v) k2 = if k2 = k then some v else subsLookup l k2 := by
  induction l with
  | nil =>
    by_cases h : k2 = k
    · simp [subsSet, subsLookup, h]
    · simp [subsSet, subsLookup, h, Ne.symm h]
  | cons e rest ih =>
    obtain ⟨k3, w⟩ := e
    by_cases h3 : k3 = k
    · subst h3
      by_cases h : k2 = k3
      · simp [subsSet, subsLookup, h]
      · simp [subsSet, subsLookup, h, Ne.symm h]
    · by_cases h : k2 = k3
      · subst h
        simp [subsSet, subsLookup, h3, Ne.symm h3]
      · simp [subsSet, subsLookup, h3, h, Ne.symm h, ih]

theorem subsSet_lookup_self (l : List (TopicName × List ℕ)) (k : TopicName)
    (v : List ℕ) (h : subsLookup l k = some v) :
    subsSet l k v = l := by
  induction l with
  | nil => simp [subsLookup] at h
  | cons e rest ih =>
    obtain ⟨k2, w⟩ := e
    by_cases hk : k2 = k
    · subst hk
      simp [subsLookup] at h
      simp [subsSet, h]
    · simp [subsLookup, hk] at h
      simp [subsSet, hk, ih h]

theorem subsLookup_subsDel (l : List (TopicName × List ℕ)) (k : TopicName) :
    subsLookup (subsDel l k) k = none := by
  induction l with
  | nil => rfl
  | cons e rest ih =>
    obtain ⟨k2, w⟩ := e
    by_cases hk : k2 = k
    · subst hk
      simpa [subsDel, List.filter] using ih
    · simpa [subsDel, List.filter, hk, subsLookup] using ih

theorem removeFirst_of_not_mem (l : List ℕ) (id : ℕ) (h : id ∉ l) :
    removeFirst l id = l := by
  induction l with
  | nil => rfl
  | cons x xs ih =>
    simp only [List.mem_cons, not_or] at h
    simp [removeFirst, Ne.symm h.1, ih h.2]

theorem overlaySubscribe_mem (o : IrisOverlay) (id : ℕ) (topic : TopicName)
    (hc : topic ∈ o.subLock) :
    overlaySubscribe o id topic =
      ({ o with subLive := subsSet o.subLive topic (((subsLookup o.subLive topic).getD []) ++ [id]) }, false) := by
  unfold overlaySubscribe
  rw [if_pos hc]

theorem overlaySubscribe_not_mem (o : IrisOverlay) (id : ℕ) (topic : TopicName)
    (hc : topic ∉ o.subLock) :
    overlaySubscribe o id topic =
      (⟨subsSet o.subLive topic [id], o.subLock ++ [topic]⟩, true) := by
  unfold overlaySubscribe
  rw [if_neg hc]

/-- C2 counterexample: starting from an empty overlay, subscribing
connection 1 to topic 7 twice does not leave the state of a single
subscribe — the id is duplicated in the topic's live subscriber list. -/
theorem overlaySubscribe_not_idempotent :
    (overlaySubscribe (overlaySubscribe ⟨[], []⟩ 1 7).1 1 7).1 ≠
      (overlaySubscribe ⟨[], []⟩ 1 7).1 ∧
    subsLookup ((overlaySubscribe (overlaySubscribe ⟨[], []⟩ 1 7).1 1 7).1).subLive 7 =
      some [1, 1] := by
  decide

/-- C2 amended: a second `subscribe` with the same id and topic never
issues `scribe.Subscribe` again, but it is not idempotent — it appends
the id once more to the topic's live list, in which the id already
occurs, so afterwards the id occurs at least twice. -/
theorem overlaySubscribe_second_appends (o : IrisOverlay) (id : ℕ) (topic : TopicName) :
    (overlaySubscribe (overlaySubscribe o id topic).1 id topic).2 = false ∧
    subsLookup ((overlaySubscribe (overlaySubscribe o id topic).1 id topic).1).subLive topic =
      some (((subsLookup (overlaySubscribe o id topic).1.subLive topic).getD []) ++ [id]) ∧
    id ∈ (subsLookup (overlaySubscribe o id topic).1.subLive topic).getD [] := by
  have hpost : topic ∈ (overlaySubscribe o id topic).1.subLock ∧
      ∃ l, subsLookup (overlaySubscribe o id topic).1.subLive topic = some (l ++ [id]) := by
    by_cases hc : topic ∈ o.subLock
    · rw [overlaySubscribe_mem o id topic hc]
      exact ⟨hc, ⟨(subsLookup o.subLive topic).getD [], by simp [subsLookup_subsSet]⟩⟩
    · rw [overlaySubscribe_not_mem o id topic hc]
      refine ⟨by simp, ⟨[], ?_⟩⟩
      simp [subsLookup_subsSet]
  obtain ⟨hc1, l, hl⟩ := hpost
  refine ⟨?_, ?_, ?_⟩
  · rw [overlaySubscribe_mem _ id topic hc1]
  · rw [overlaySubscribe_mem _ id topic hc1]
    simp [subsLookup_subsSet]
  · simp [hl]

/-- C4: from a state where the topic has a lock entry and `id` is among
its live subscribers, `unsubscribe` either empties the list — then the
topic is deleted from both the subscriber map and the lock map and the
single `scribe.Unsubscribe(topic)` cascade is taken — or leaves other
subscribers, in which case no cascade happens and the topic entry
remains. -/
theorem overlayUnsubscribe_gc (o : IrisOverlay) (id : ℕ) (topic : TopicName)
    (hlock : topic ∈ o.subLock)
    (hmem : id ∈ (subsLookup o.subLive topic).getD []) :
    (removeFirst ((subsLookup o.subLive topic).getD []) id = [] →
      (overlayUnsubscribe o id topic).2 = .cascade ∧
      subsLookup (overlayUnsubscribe o id topic).1.subLive topic = none ∧
      topic ∉ (overlayUnsubscribe o id topic).1.subLock) ∧
    (removeFirst ((subsLookup o.subLive topic).getD []) id ≠ [] →
      (overlayUnsubscribe o id topic).2 = .ok ∧
      subsLookup (overlayUnsubscribe o id topic).1.subLive topic =
        some (removeFirst ((subsLookup o.subLive topic).getD []) id) ∧
      topic ∈ (overlayUnsubscribe o id topic).1.subLock) := by
  constructor
  · intro hempty
    unfold overlayUnsubscribe
    simp only [if_pos hlock]
    rw [if_neg (by simp [hmem])]
    rw [if_pos hempty]
    refine ⟨rfl, subsLookup_subsDel _ _, ?_⟩
    simp [List.mem_filter]
  · intro hne
    unfold overlayUnsubscribe
    simp only [if_pos hlock]
    rw [if_neg (by simp [hmem])]
    rw [if_neg hne]
    exact ⟨rfl, by simp [subsLookup_subsSet], hlock⟩

/-- Witness for C4: topic 7 subscribed by connections 5 and 6; removing
5 keeps the entry; in the sibling state with only 5, removing 5 empties
it and cascades. -/
theorem overlayUnsubscribe_gc_witness :
    (7 ∈ ([7] : List TopicName) ∧
     5 ∈ (subsLookup [(7, [5, 6])] 7).getD []) ∧
    ((removeFirst ((subsLookup [(7, [5, 6])] 7).getD []) 5 = [] →
      (overlayUnsubscribe ⟨[(7, [5, 6])], [7]⟩ 5 7).2 = .cascade ∧
      subsLookup (overlayUnsubscribe ⟨[(7, [5, 6])], [7]⟩ 5 7).1.subLive 7 = none ∧
      7 ∉ (overlayUnsubscribe ⟨[(7, [5, 6])], [7]⟩ 5 7).1.subLock) ∧
     (removeFirst ((subsLookup [(7, [5, 6])] 7).getD []) 5 ≠ [] →
      (overlayUnsubscribe ⟨[(7, [5, 6])], [7]⟩ 5 7).2 = .ok ∧
      subsLookup (overlayUnsubscribe ⟨[(7, [5, 6])], [7]⟩ 5 7).1.subLive 7 =
        some (removeFirst ((subsLookup [(7, [5, 6])] 7).getD []) 5) ∧
      7 ∈ (overlayUnsubscribe ⟨[(7, [5, 6])], [7]⟩ 5 7).1.subLock)) :=
  ⟨⟨by decide, by decide⟩, overlayUnsubscribe_gc ⟨[(7, [5, 6])], [7]⟩ 5 7 (by decide) (by decide)⟩

/-- C6: `unsubscribe` reports `not-subscribed` exactly when the topic
has no subscription entry or the id is not among its subscribers, and
in either error case the subscription state is returned unchanged.  The
hypothesis is the map-alignment invariant every reachable overlay
satisfies: a topic with a lock entry has a live-list entry. -/
theorem overlayUnsubscribe_not_subscribed_iff (o : IrisOverlay) (id : ℕ) (topic : TopicName)
    (hinv : topic ∈ o.subLock → (subsLookup o.subLive topic).isSome = true) :
    ((overlayUnsubscribe o id topic).2 = .notSubscribed ↔
      topic ∉ o.subLock ∨ id ∉ (subsLookup o.subLive topic).getD []) ∧
    ((overlayUnsubscribe o id topic).2 = .notSubscribed →
      (overlayUnsubscribe o id topic).1 = o) := by
  by_cases hc : topic ∈ o.subLock
  · obtain ⟨subs, hsubs⟩ := Option.isSome_iff_exists.mp (hinv hc)
    by_cases hm : id ∈ (subsLookup o.subLive topic).getD []
    · have hres : (overlayUnsubscribe o id topic).2 ≠ .notSubscribed := by
        unfold overlayUnsubscribe
        simp only [if_pos hc]
        rw [if_neg (by simp [hm])]
        by_cases he : removeFirst ((subsLookup o.subLive topic).getD []) id = []
        · rw [if_pos he]; simp
        · rw [if_neg he]; simp
      constructor
      · constructor
        · intro h; exact absurd h hres
        · intro h
          rcases h with h | h
          · exact absurd hc h
          · exact absurd hm h
      · intro h; exact absurd h hres
    · have hr : removeFirst ((subsLookup o.subLive topic).getD []) id =
          (subsLookup o.subLive topic).getD [] :=
        removeFirst_of_not_mem _ _ hm
      have hstate : (overlayUnsubscribe o id topic) =
          ({ o with subLive := subsSet o.subLive topic ((subsLookup o.subLive topic).getD []) }, .notSubscribed) := by
        unfold overlayUnsubscribe
        simp only [if_pos hc, hr]
        rw [if_pos (by simp [hm])]
      have hset : subsSet o.subLive topic ((subsLookup o.subLive topic).getD []) =
          o.subLive := by
        rw [hsubs]
        exact subsSet_lookup_self _ _ _ (by simpa using hsubs)
      rw [hstate]
      simp only [hset]
      refine ⟨?_, ?_⟩
      · simp [hm]
      · intro h2
        trivial
  · have hstate : overlayUnsubscribe o id topic = (o, .notSubscribed) := by
      unfold overlayUnsubscribe
      rw [if_neg hc]
    rw [hstate]
    exact ⟨by simp [hc], fun _ => rfl⟩

/-- Witness for C6: topic 3 exists with subscriber 1; unsubscribing the
absent id 2 errors with `not-subscribed` and changes nothing. -/
theorem overlayUnsubscribe_not_subscribed_witness :
    (3 ∈ ([3] : List TopicName) → (subsLookup [(3, [1])] 3).isSome = true) ∧
    (((overlayUnsubscribe ⟨[(3, [1])], [3]⟩ 2 3).2 = .notSubscribed ↔
      3 ∉ ([3] : List TopicName) ∨ 2 ∉ (subsLookup [(3, [1])] 3).getD []) ∧
     ((overlayUnsubscribe ⟨[(3, [1])], [3]⟩ 2 3).2 = .notSubscribed →
      (overlayUnsubscribe ⟨[(3, [1])], [3]⟩ 2 3).1 = ⟨[(3, [1])], [3]⟩)) :=
  ⟨by decide, overlayUnsubscribe_not_subscribed_iff ⟨[(3, [1])], [3]⟩ 2 3 (by decide)⟩

/-! ## Relay handshake

`Relay.acceptRelay` (`relay.go:62-109`) runs three fallible handshake
steps in order — `procInit` (read the client's init), `iris.Connect`
(open the carrier connection) and `sendInit` (acknowledge) — dropping
the socket and returning the step's error on the first failure, and
starting the worker pool (`workers.Start()`) and the processing loop
(`go rel.process()`) only after all three succeed.  The three steps
touch the network and the carrier, so their results are inputs of the
embedding. -/

/-- Handshake step errors, abstracted to codes. -/
abbrev RelayErr := ℕ

/-- What `acceptRelay` observably did: whether `drop()` closed the
client socket, and whether the worker pool and the reader loop were
started. -/
structure AcceptOutcome where
  sockClosed : Bool
  workersStarted : Bool
  processStarted : Bool
  deriving DecidableEq

/-- `Relay.acceptRelay` over the results of its three handshake steps
(`none` is success): each failure path calls `rel.drop()` and returns
the error; the success path starts the workers and the process loop. -/
def acceptRelay (initErr connectErr ackErr : Option RelayErr) :
    AcceptOutcome × Option RelayErr :=
  match initErr with
  | some e => (⟨true, false, false⟩, some e)
  | none =>
    match connectErr with
    | some e => (⟨true, false, false⟩, some e)
    | none =>
      match ackErr with
      | some e => (⟨true, false, false⟩, some e)
      | none => (⟨false, true, true⟩, none)

/-- C7: `acceptRelay` fails exactly when some handshake step fails; on
failure the socket is closed, neither the worker pool nor the reader
loop is started, and the first failing step's error is returned; when
every step succeeds both are started and the socket stays open. -/
theorem acceptRelay_error_paths (e1 e2 e3 : Option RelayErr) :
    ((acceptRelay e1 e2 e3).2 = none ↔ e1 = none ∧ e2 = none ∧ e3 = none) ∧
    ((acceptRelay e1 e2 e3).2 ≠ none →
      (acceptRelay e1 e2 e3).1 = ⟨true, false, false⟩ ∧
      (acceptRelay e1 e2 e3).2 = e1.or (e2.or e3)) ∧
    (e1 = none ∧ e2 = none ∧ e3 = none →
      (acceptRelay e1 e2 e3).1 = ⟨false, true, true⟩) := by
  rcases e1 with _ | a <;> rcases e2 with _ | b <;> rcases e3 with _ | c <;>
    simp [acceptRelay]

/-- Witness for C7: the carrier connection step fails with error 9. -/
theorem acceptRelay_error_paths_witness :
    ((acceptRelay none (some 9) none).2 = none ↔
      (none : Option RelayErr) = none ∧ (some 9 : Option RelayErr) = none ∧
      (none : Option RelayErr) = none) ∧
    ((acceptRelay none (some 9) none).2 ≠ none →
      (acceptRelay none (some 9) none).1 = ⟨true, false, false⟩ ∧
      (acceptRelay none (some 9) none).2 =
        (none : Option RelayErr).or ((some 9 : Option RelayErr).or none)) ∧
    ((none : Option RelayErr) = none ∧ (some 9 : Option RelayErr) = none ∧
      (none : Option RelayErr) = none →
      (acceptRelay none (some 9) none).1 = ⟨false, true, true⟩) :=
  acceptRelay_error_paths none (some 9) none

/-! ## Carrier heartbeat

`carrier.Beat` (`heart.go:59-93`): for every topic, `GenerateReport()`
yields parallel lists of destination node ids and capacities; the inner
loop buckets the `(topic, capacity)` pairs into a map keyed by the
destination id's decimal string; the distribution loop parses each key
back and sends one aggregated report per destination; every topic is
`Cycle()`d; every root topic re-sends its subscription.  The topic
implementation is outside the given sources, so a topic is embedded by
what `Beat` reads of it (`Self()`, `Parent()`, the `GenerateReport()`
lists) plus its per-cycle counters; Go's map iteration order becomes
the list order of `topics`. -/

/-- The view of a topic that `carrier.Beat` consumes, together with the
per-cycle counters `Cycle()` acts on. -/
structure BeatTopic where
  self : ℕ
  parent : Option ℕ
  repIds : List ℕ
  repCaps : List ℕ
  counters : List ℕ
  deriving DecidableEq

/-- Modelled from the spec: `topic.Cycle()` — the topic implementation
is not among the given sources; spec §4.4 says "`Cycle()` resets
per-cycle counters". -/
def BeatTopic.cycle (t : BeatTopic) : BeatTopic :=
  { t with counters := t.counters.map (fun _ => 0) }

/-- `report` (`heart.go:32-35`): parallel topic and capacity lists. -/
structure LoadReport where
  tops : List ℕ
  caps : List ℕ
  deriving DecidableEq

/-- The `(topic, capacity)` pairs a report carries. -/
def LoadReport.pairs (r : LoadReport) : List (ℕ × ℕ) :=
  r.tops.zip r.caps

/-- Lookup `reports[sid]` in the embedded report map. -/
def repLookup : List (List ℕ × LoadReport) → List ℕ → Option LoadReport
  | [], _ => none
  | (k, r) :: rest, sid => if k = sid then some r else repLookup rest sid

/-- The keys of the embedded report map. -/
def repKeys (reps : List (List ℕ × LoadReport)) : List (List ℕ) :=
  reps.map Prod.fst

/-- What one inner-loop iteration does to the entry: create `{[s], [c]}`
or append to the existing parallel lists. -/
def extendRep : Option LoadReport → ℕ → ℕ → LoadReport
  | none, s, c => ⟨[s], [c]⟩
  | some r, s, c => ⟨r.tops ++ [s], r.caps ++ [c]⟩

/-- One iteration of the inner loop of `carrier.Beat`
(`heart.go:67-76`): fetch or create `reports[sid]`, then append
`top.Self()` to `rep.Tops` and the capacity to `rep.Caps`. -/
def addEntry : List (List ℕ × LoadReport) → List ℕ → ℕ → ℕ → List (List ℕ × LoadReport)
  | [], sid, s, c => [(sid, ⟨[s], [c]⟩)]
  | (k, r) :: rest, sid, s, c =>
    if k = sid then (k, ⟨r.tops ++ [s], r.caps ++ [c]⟩) :: rest
    else (k, r) :: addEntry rest sid s c

/-- The inner loop of `carrier.Beat` over one topic's report: bucket
each `(destination id, capacity)` pair under the id's decimal string. -/
def bucketTopic (reps : List (List ℕ × LoadReport)) (self : ℕ) (pairs : List (ℕ × ℕ)) :
    List (List ℕ × LoadReport) :=
  pairs.foldl (fun r p => addEntry r (goDigits p.1) self p.2) reps

/-- The report-collection loop of `carrier.Beat` (`heart.go:64-78`). -/
def collectReports (topics : List BeatTopic) : List (List ℕ × LoadReport) :=
  topics.foldl (fun reps top => bucketTopic reps top.self (top.repIds.zip top.repCaps)) []

/-- The distribution loop of `carrier.Beat` (`heart.go:80-86`): parse
each key back with `SetString(sid, 10)` and send the report to the
parsed destination; an unparsable key is the
`panic("failed to extract node id.")` branch, embedded as `none`. -/
def distributeReports : List (List ℕ × LoadReport) → Option (List (ℕ × LoadReport))
  | [] => some []
  | (sid, rep) :: rest =>
    match goParse sid with
    | some id =>
      match distributeReports rest with
      | some out => some ((id, rep) :: out)
      | none => none
    | none => none

/-- The observable effects of one `carrier.Beat` call. -/
structure BeatOutput where
  sends : Option (List (ℕ × LoadReport))
  cycled : List BeatTopic
  resubscribed : List ℕ
  deriving DecidableEq

/-- `carrier.Beat` (`heart.go:59-93`): collect and distribute the load
reports, `Cycle()` every topic, and re-send a subscribe for every topic
whose `Parent()` is `nil`. -/
def carrierBeat (topics : List BeatTopic) : BeatOutput :=
  { sends := distributeReports (collectReports topics)
    cycled := topics.map BeatTopic.cycle
    resubscribed := (topics.filter (fun t => t.parent.isNone)).map (fun t => t.self) }

/-- The spec's description of the bucketing, stated independently of
the fold: the `(topic, capacity)` pairs addressed to destination `n`,
in topic traversal order. -/
def specNodePairs (topics : List BeatTopic) (n : ℕ) : List (ℕ × ℕ) :=
  topics.foldr
    (fun t acc =>
      ((t.repIds.zip t.repCaps).filterMap
        (fun p => if p.1 = n then some (t.self, p.2) else none)) ++ acc)
    []

/-- The parallel-list wellformedness the report map maintains. -/
def repWf (reps : List (List ℕ × LoadReport)) : Prop :=
  ∀ e ∈ reps, e.2.tops.length = e.2.caps.length

/-- Report-map lookups seen through `pairs`. -/
def pairsOf : Option LoadReport → List (ℕ × ℕ)
  | none => []
  | some r => r.pairs

theorem repLookup_addEntry (reps : List (List ℕ × LoadReport)) (sid : List ℕ)
    (s c : ℕ) (k : List ℕ) :
    repLookup (addEntry reps sid s c) k =
      if k = sid then some (extendRep (repLookup reps sid) s c)
      else repLookup reps k := by
  induction reps with
  | nil =>
    by_cases h : k = sid
    · simp [addEntry, repLookup, h, extendRep]
    · simp [addEntry, repLookup, h, Ne.symm h]
  | cons e rest ih =>
    obtain ⟨k2, r⟩ := e
    by_cases h2 : k2 = sid
    · subst h2
      by_cases h : k = k2
      · simp [addEntry, repLookup, h, extendRep]
      · simp [addEntry, repLookup, h, Ne.symm h]
    · by_cases h : k = k2
      · subst h
        simp [addEntry, repLookup, h2, Ne.symm h2]
      · simp [addEntry, repLookup, h2, h, Ne.symm h, ih]

theorem repWf_lookup (reps : List (List ℕ × LoadReport)) (k : List ℕ)
    (r : LoadReport) (hwf : repWf reps) (h : repLookup reps k = some r) :
    r.tops.length = r.caps.length := by
  induction reps with
  | nil => simp [repLookup] at h
  | cons e rest ih =>
    obtain ⟨k2, r2⟩ := e
    by_cases h2 : k2 = k
    · rw [repLookup, if_pos h2] at h
      have h3 := hwf ⟨k2, r2⟩ (by simp)
      injection h with h4
      rw [← h4]
      exact h3
    · rw [repLookup, if_neg h2] at h
      exact ih (fun e he => hwf e (List.mem_cons_of_mem _ he)) h

theorem pairs_extendRep (o : Option LoadReport) (s c : ℕ)
    (hwf : ∀ r, o = some r → r.tops.length = r.caps.length) :
    (extendRep o s c).pairs = pairsOf o ++ [(s, c)] := by
  cases o with
  | none => simp [extendRep, pairsOf, LoadReport.pairs]
  | some r =>
    simp only [extendRep, pairsOf, LoadReport.pairs]
    exact List.zip_append (hwf r rfl)

theorem repWf_addEntry (reps : List (List ℕ × LoadReport)) (sid : List ℕ)
    (s c : ℕ) (hwf : repWf reps) : repWf (addEntry reps sid s c) := by
  induction reps with
  | nil =>
    intro e he
    simp [addEntry] at he
    simp [he]
  | cons e0 rest ih =>
    obtain ⟨k2, r⟩ := e0
    by_cases h2 : k2 = sid
    · intro e he
      simp only [addEntry, if_pos h2] at he
      rcases List.mem_cons.mp he with h | h
      · subst h
        have := hwf ⟨k2, r⟩ (by simp)
        simp at this ⊢
        omega
      · exact hwf e (List.mem_cons_of_mem _ h)
    · intro e he
      simp only [addEntry, if_neg h2] at he
      rcases List.mem_cons.mp he with h | h
      · subst h
        exact hwf ⟨k2, r⟩ (by simp)
      · exact ih (fun e2 he2 => hwf e2 (List.mem_cons_of_mem _ he2)) e h

/-- `collectReports` generalized over the accumulated report map. -/
def collectFrom (topics : List BeatTopic) (reps : List (List ℕ × LoadReport)) :
    List (List ℕ × LoadReport) :=
  topics.foldl (fun reps top => bucketTopic reps top.self (top.repIds.zip top.repCaps)) reps

theorem collectReports_eq_collectFrom (topics : List BeatTopic) :
    collectReports topics = collectFrom topics [] := rfl

theorem collectFrom_cons (t : BeatTopic) (ts : List BeatTopic)
    (reps : List (List ℕ × LoadReport)) :
    collectFrom (t :: ts) reps =
      collectFrom ts (bucketTopic reps t.self (t.repIds.zip t.repCaps)) := rfl

theorem bucketTopic_cons (reps : List (List ℕ × LoadReport)) (self : ℕ)
    (p : ℕ × ℕ) (L : List (ℕ × ℕ)) :
    bucketTopic reps self (p :: L) =
      bucketTopic (addEntry reps (goDigits p.1) self p.2) self L := rfl

theorem specNodePairs_cons (t : BeatTopic) (ts : List BeatTopic) (n : ℕ) :
    specNodePairs (t :: ts) n =
      ((t.repIds.zip t.repCaps).filterMap
        (fun p => if p.1 = n then some (t.self, p.2) else none)) ++
      specNodePairs ts n := rfl

theorem repWf_bucketTopic (L : List (ℕ × ℕ)) (reps : List (List ℕ × LoadReport))
    (self : ℕ) (hwf : repWf reps) : repWf (bucketTopic reps self L) := by
  induction L generalizing reps with
  | nil => exact hwf
  | cons p L ih =>
    rw [bucketTopic_cons]
    exact ih _ (repWf_addEntry _ _ _ _ hwf)

theorem repWf_collectFrom (topics : List BeatTopic) (reps : List (List ℕ × LoadReport))
    (hwf : repWf reps) : repWf (collectFrom topics reps) := by
  induction topics generalizing reps with
  | nil => exact hwf
  | cons t ts ih =>
    rw [collectFrom_cons]
    exact ih _ (repWf_bucketTopic _ _ _ hwf)

theorem pairsOf_bucketTopic (L : List (ℕ × ℕ)) (reps : List (List ℕ × LoadReport))
    (self n : ℕ) (hwf : repWf reps) :
    pairsOf (repLookup (bucketTopic reps self L) (goDigits n)) =
      pairsOf (repLookup reps (goDigits n)) ++
        L.filterMap (fun p => if p.1 = n then some (self, p.2) else none) := by
  induction L generalizing reps with
  | nil => simp [bucketTopic]
  | cons p L ih =>
    rw [bucketTopic_cons, ih _ (repWf_addEntry _ _ _ _ hwf)]
    by_cases hp : p.1 = n
    · have hk : goDigits n = goDigits p.1 := by rw [hp]
      rw [repLookup_addEntry, if_pos hk]
      have hwf2 : ∀ r, repLookup reps (goDigits p.1) = some r →
          r.tops.length = r.caps.length :=
        fun r hr => repWf_lookup _ _ _ hwf hr
      simp only [pairsOf]
      rw [pairs_extendRep _ _ _ hwf2, hk]
      simp only [List.filterMap_cons, hp, if_pos rfl]
      rw [List.append_assoc]
      rfl
    · have hk : goDigits n ≠ goDigits p.1 := fun hc => hp (goDigits_injective hc).symm
      rw [repLookup_addEntry, if_neg hk]
      simp [List.filterMap_cons, hp]

theorem isSome_bucketTopic (L : List (ℕ × ℕ)) (reps : List (List ℕ × LoadReport))
    (self : ℕ) (k : List ℕ) :
    (repLookup (bucketTopic reps self L) k).isSome = true ↔
      (repLookup reps k).isSome = true ∨ ∃ p ∈ L, goDigits p.1 = k := by
  induction L generalizing reps with
  | nil => simp [bucketTopic]
  | cons p L ih =>
    rw [bucketTopic_cons, ih]
    rw [repLookup_addEntry]
    by_cases hk : k = goDigits p.1
    · simp only [if_pos hk, Option.isSome_some]
      constructor
      · intro _
        exact Or.inr ⟨p, by simp, hk.symm⟩
      · intro _
        exact Or.inl trivial
    · rw [if_neg hk]
      constructor
      · intro h
        rcases h with h | ⟨q, hq, hqk⟩
        · exact Or.inl h
        · exact Or.inr ⟨q, List.mem_cons_of_mem _ hq, hqk⟩
      · intro h
        rcases h with h | ⟨q, hq, hqk⟩
        · exact Or.inl h
        · rcases List.mem_cons.mp hq with h2 | h2
          · subst h2
            exact absurd hqk.symm hk
          · exact Or.inr ⟨q, h2, hqk⟩

theorem pairsOf_collectFrom (topics : List BeatTopic)
    (reps : List (List ℕ × LoadReport)) (n : ℕ) (hwf : repWf reps) :
    pairsOf (repLookup (collectFrom topics reps) (goDigits n)) =
      pairsOf (repLookup reps (goDigits n)) ++ specNodePairs topics n := by
  induction topics generalizing reps with
  | nil => simp [collectFrom, specNodePairs]
  | cons t ts ih =>
    rw [collectFrom_cons, ih _ (repWf_bucketTopic _ _ _ hwf)]
    rw [pairsOf_bucketTopic _ _ _ _ hwf, specNodePairs_cons]
    rw [List.append_assoc]

theorem isSome_collectFrom (topics : List BeatTopic)
    (reps : List (List ℕ × LoadReport)) (k : List ℕ) :
    (repLookup (collectFrom topics reps) k).isSome = true ↔
      (repLookup reps k).isSome = true ∨
        ∃ t ∈ topics, ∃ p ∈ t.repIds.zip t.repCaps, goDigits p.1 = k := by
  induction topics generalizing reps with
  | nil => simp [collectFrom]
  | cons t ts ih =>
    rw [collectFrom_cons, ih, isSome_bucketTopic]
    constructor
    · intro h
      rcases h with (h | ⟨p, hp, hpk⟩) | ⟨t2, ht2, hp⟩
      · exact Or.inl h
      · exact Or.inr ⟨t, by simp, p, hp, hpk⟩
      · exact Or.inr ⟨t2, List.mem_cons_of_mem _ ht2, hp⟩
    · intro h
      rcases h with h | ⟨t2, ht2, p, hp, hpk⟩
      · exact Or.inl (Or.inl h)
      · rcases List.mem_cons.mp ht2 with h2 | h2
        · subst h2
          exact Or.inl (Or.inr ⟨p, hp, hpk⟩)
        · exact Or.inr ⟨t2, h2, p, hp, hpk⟩

theorem repKeys_addEntry (reps : List (List ℕ × LoadReport)) (sid : List ℕ) (s c : ℕ) :
    repKeys (addEntry reps sid s c) =
      if sid ∈ repKeys reps then repKeys reps else repKeys reps ++ [sid] := by
  induction reps with
  | nil => simp [addEntry, repKeys]
  | cons e rest ih =>
    obtain ⟨k2, r⟩ := e
    by_cases h2 : k2 = sid
    · subst h2
      simp [addEntry, repKeys]
    · rw [repKeys, addEntry, if_neg h2]
      simp only [List.map_cons]
      rw [show (addEntry rest sid s c).map Prod.fst = repKeys (addEntry rest sid s c) from rfl]
      rw [ih]
      by_cases hm : sid ∈ repKeys rest
      · rw [if_pos hm]
        have hmem : sid ∈ repKeys ((k2, r) :: rest) := List.mem_cons_of_mem k2 hm
        rw [if_pos hmem]
        rfl
      · rw [if_neg hm]
        have hnot : sid ∉ repKeys ((k2, r) :: rest) := fun hc =>
          (List.mem_cons.mp hc).elim (fun he => h2 he.symm) hm
        rw [if_neg hnot]
        rfl

theorem repKeys_nodup_addEntry (reps : List (List ℕ × LoadReport)) (sid : List ℕ)
    (s c : ℕ) (hnd : (repKeys reps).Nodup) : (repKeys (addEntry reps sid s c)).Nodup := by
  rw [repKeys_addEntry]
  by_cases hm : sid ∈ repKeys reps
  · rw [if_pos hm]
    exact hnd
  · rw [if_neg hm]
    simp [List.nodup_append, hnd, hm]

theorem repKeys_digits_addEntry (reps : List (List ℕ × LoadReport)) (m : ℕ) (s c : ℕ)
    (h : ∀ k ∈ repKeys reps, ∃ n, k = goDigits n) :
    ∀ k ∈ repKeys (addEntry reps (goDigits m) s c), ∃ n, k = goDigits n := by
  rw [repKeys_addEntry]
  by_cases hm : goDigits m ∈ repKeys reps
  · rw [if_pos hm]
    exact h
  · rw [if_neg hm]
    intro k hk
    rcases List.mem_append.mp hk with h2 | h2
    · exact h k h2
    · exact ⟨m, by simpa using h2⟩

theorem repKeys_nodup_bucketTopic (L : List (ℕ × ℕ)) (reps : List (List ℕ × LoadReport))
    (self : ℕ) (hnd : (repKeys reps).Nodup) :
    (repKeys (bucketTopic reps self L)).Nodup := by
  induction L generalizing reps with
  | nil => exact hnd
  | cons p L ih =>
    rw [bucketTopic_cons]
    exact ih _ (repKeys_nodup_addEntry _ _ _ _ hnd)

theorem repKeys_digits_bucketTopic (L : List (ℕ × ℕ)) (reps : List (List ℕ × LoadReport))
    (self : ℕ) (h : ∀ k ∈ repKeys reps, ∃ n, k = goDigits n) :
    ∀ k ∈ repKeys (bucketTopic reps self L), ∃ n, k = goDigits n := by
  induction L generalizing reps with
  | nil => exact h
  | cons p L ih =>
    rw [bucketTopic_cons]
    exact ih _ (repKeys_digits_addEntry _ _ _ _ h)

theorem repKeys_nodup_collectFrom (topics : List BeatTopic)
    (reps : List (List ℕ × LoadReport)) (hnd : (repKeys reps).Nodup) :
    (repKeys (collectFrom topics reps)).Nodup := by
  induction topics generalizing reps with
  | nil => exact hnd
  | cons t ts ih =>
    rw [collectFrom_cons]
    exact ih _ (repKeys_nodup_bucketTopic _ _ _ hnd)

theorem repKeys_digits_collectFrom (topics : List BeatTopic)
    (reps : List (List ℕ × LoadReport))
    (h : ∀ k ∈ repKeys reps, ∃ n, k = goDigits n) :
    ∀ k ∈ repKeys (collectFrom topics reps), ∃ n, k = goDigits n := by
  induction topics generalizing reps with
  | nil => exact h
  | cons t ts ih =>
    rw [collectFrom_cons]
    exact ih _ (repKeys_digits_bucketTopic _ _ _ h)

theorem repKeys_digits_collectReports (topics : List BeatTopic) :
    ∀ k ∈ repKeys (collectReports topics), ∃ n, k = goDigits n := by
  rw [collectReports_eq_collectFrom]
  exact repKeys_digits_collectFrom topics [] (by simp [repKeys])

theorem distributeReports_of_digits (reps : List (List ℕ × LoadReport))
    (h : ∀ k ∈ repKeys reps, ∃ n, k = goDigits n) :
    distributeReports reps =
      some (reps.map (fun e => ((goParse e.1).getD 0, e.2))) := by
  induction reps with
  | nil => rfl
  | cons e rest ih =>
    obtain ⟨sid, rep⟩ := e
    obtain ⟨m, hm⟩ := h sid (by simp [repKeys])
    subst hm
    rw [distributeReports]
    rw [goParse_goDigits]
    rw [ih (fun k hk => h k (by simp [repKeys] at hk ⊢; exact Or.inr hk))]
    simp [goParse_goDigits]

theorem repKeys_isSome (reps : List (List ℕ × LoadReport)) (k : List ℕ) :
    k ∈ repKeys reps ↔ (repLookup reps k).isSome = true := by
  induction reps with
  | nil => simp [repKeys, repLookup]
  | cons e rest ih =>
    obtain ⟨k2, r⟩ := e
    by_cases h : k2 = k
    · simp [repKeys, repLookup, h]
    · simp only [repKeys, List.map_cons, List.mem_cons]
      rw [repLookup, if_neg h]
      constructor
      · intro h2
        rcases h2 with h2 | h2
        · exact absurd h2.symm h
        · exact ih.mp h2
      · intro h2
        exact Or.inr (ih.mpr h2)

theorem repLookup_of_mem_nodup (reps : List (List ℕ × LoadReport)) (k : List ℕ)
    (r : LoadReport) (hnd : (repKeys reps).Nodup) (hmem : (k, r) ∈ reps) :
    repLookup reps k = some r := by
  induction reps with
  | nil => simp at hmem
  | cons e rest ih =>
    obtain ⟨k2, r2⟩ := e
    rcases List.mem_cons.mp hmem with h | h
    · obtain ⟨hk, hr⟩ := Prod.mk.injEq .. ▸ h
      rw [repLookup, if_pos hk.symm, hr]
    · by_cases hk : k2 = k
      · exfalso
        subst hk
        have : k2 ∈ repKeys rest := by
          rw [repKeys]
          exact List.mem_map.mpr ⟨(k2, r), h, rfl⟩
        rw [repKeys] at hnd
        simp only [List.map_cons, List.nodup_cons] at hnd
        exact hnd.1 (by simpa [repKeys] using this)
      · rw [repLookup, if_neg hk]
        refine ih ?_ h
        rw [repKeys] at hnd ⊢
        simp only [List.map_cons, List.nodup_cons] at hnd
        exact hnd.2

/-- C9: every key of the report map `carrier.Beat` assembles is the
decimal string of a node id; such strings always parse back under
`SetString(sid, 10)`; hence the `panic("failed to extract node id.")`
branch of the distribution loop is unreachable on every execution of
`Beat`. -/
theorem beat_panic_unreachable :
    (∀ n : ℕ, goParse (goDigits n) = some n) ∧
    (∀ topics : List BeatTopic, ((carrierBeat topics).sends).isSome = true) := by
  refine ⟨goParse_goDigits, ?_⟩
  intro topics
  show (distributeReports (collectReports topics)).isSome = true
  rw [distributeReports_of_digits _ (repKeys_digits_collectReports topics)]
  rfl

/-- C8: under the parallel-report-list contract of `GenerateReport()`,
`carrier.Beat` sends to nodes with no duplicates; a node is sent a
report exactly when it appears in some topic's report; the report it
gets carries exactly its `(topic, capacity)` pairs in traversal order;
every topic is cycled (its per-cycle counters reset); and exactly the
topics whose `Parent()` is `nil` re-send their subscription. -/
theorem beat_bucketed_reports (topics : List BeatTopic)
    (hlen : ∀ t ∈ topics, t.repIds.length = t.repCaps.length) :
    (∀ out, (carrierBeat topics).sends = some out →
      (out.map Prod.fst).Nodup ∧
      (∀ n, n ∈ out.map Prod.fst ↔ ∃ t ∈ topics, n ∈ t.repIds) ∧
      (∀ n rep, (n, rep) ∈ out → rep.pairs = specNodePairs topics n)) ∧
    (carrierBeat topics).cycled = topics.map BeatTopic.cycle ∧
    (∀ t ∈ (carrierBeat topics).cycled, ∀ c ∈ t.counters, c = 0) ∧
    (carrierBeat topics).resubscribed =
      (topics.filter (fun t => t.parent.isNone)).map (fun t => t.self) := by
  have hdig := repKeys_digits_collectReports topics
  have hnd : (repKeys (collectReports topics)).Nodup := by
    rw [collectReports_eq_collectFrom]
    exact repKeys_nodup_collectFrom topics [] (by simp [repKeys])
  have hwfnil : repWf ([] : List (List ℕ × LoadReport)) := by
    intro e he
    simp at he
  refine ⟨?_, rfl, ?_, rfl⟩
  · intro out hout
    rw [show (carrierBeat topics).sends =
        distributeReports (collectReports topics) from rfl] at hout
    rw [distributeReports_of_digits _ hdig] at hout
    have hout2 : out =
        (collectReports topics).map (fun e => ((goParse e.1).getD 0, e.2)) := by
      injection hout with h
      exact h.symm
    subst hout2
    have hfst : ((collectReports topics).map
          (fun e => ((goParse e.1).getD 0, e.2))).map Prod.fst =
        (repKeys (collectReports topics)).map (fun k => (goParse k).getD 0) := by
      simp [repKeys, List.map_map]
    refine ⟨?_, ?_, ?_⟩
    · rw [hfst]
      refine List.Nodup.map_on ?_ hnd
      intro x hx y hy hxy
      obtain ⟨m, hm⟩ := hdig x hx
      obtain ⟨m2, hm2⟩ := hdig y hy
      subst hm
      subst hm2
      rw [goParse_goDigits, goParse_goDigits] at hxy
      simp at hxy
      rw [hxy]
    · intro n
      rw [hfst]
      constructor
      · intro hmem
        obtain ⟨k, hk, hgk⟩ := List.mem_map.mp hmem
        obtain ⟨m, hm⟩ := hdig k hk
        subst hm
        rw [goParse_goDigits] at hgk
        simp at hgk
        subst hgk
        have hsome := (repKeys_isSome _ _).mp hk
        rw [collectReports_eq_collectFrom] at hsome
        rw [isSome_collectFrom] at hsome
        rcases hsome with h | ⟨t, ht, p, hp, hpk⟩
        · simp [repLookup] at h
        · have hp1 : p.1 = m := goDigits_injective hpk
          refine ⟨t, ht, ?_⟩
          rw [← List.map_fst_zip t.repIds t.repCaps (le_of_eq (hlen t ht))]
          exact List.mem_map.mpr ⟨p, hp, hp1⟩
      · intro ⟨t, ht, hid⟩
        have hid2 : n ∈ (t.repIds.zip t.repCaps).map Prod.fst := by
          rw [List.map_fst_zip t.repIds t.repCaps (le_of_eq (hlen t ht))]
          exact hid
        obtain ⟨p, hp, hp1⟩ := List.mem_map.mp hid2
        have hsome : (repLookup (collectReports topics) (goDigits n)).isSome = true := by
          rw [collectReports_eq_collectFrom, isSome_collectFrom]
          exact Or.inr ⟨t, ht, p, hp, by rw [hp1]⟩
        have hk := (repKeys_isSome _ _).mpr hsome
        refine List.mem_map.mpr ⟨goDigits n, hk, ?_⟩
        rw [goParse_goDigits]
        rfl
    · intro n rep hmem
      obtain ⟨e, he, hfe⟩ := List.mem_map.mp hmem
      obtain ⟨k, r⟩ := e
      obtain ⟨m, hm⟩ := hdig k (List.mem_map.mpr ⟨(k, r), he, rfl⟩)
      subst hm
      have hn : m = n := by
        have := congrArg Prod.fst hfe
        simpa [goParse_goDigits] using this
      have hr : r = rep := congrArg Prod.snd hfe
      subst hn
      subst hr
      have hlook := repLookup_of_mem_nodup _ _ _ hnd he
      have hpairs := pairsOf_collectFrom topics [] m hwfnil
      rw [← collectReports_eq_collectFrom] at hpairs
      rw [hlook] at hpairs
      simpa [pairsOf, repLookup] using hpairs
  · intro t ht c hc
    rw [show (carrierBeat topics).cycled = topics.map BeatTopic.cycle from rfl] at ht
    obtain ⟨t0, _, ht0⟩ := List.mem_map.mp ht
    rw [← ht0] at hc
    simp [BeatTopic.cycle] at hc
    exact hc.2

/-- A concrete two-topic carrier for the C8 witness: topic 1 is a root
reporting to node 5; topic 2 has parent 9 and reports to nodes 5 and 6. -/
def c8topics : List BeatTopic :=
  [⟨1, none, [5], [2], [3]⟩, ⟨2, some 9, [5, 6], [7, 8], []⟩]

/-- Witness for C8 on the two-topic carrier `c8topics`. -/
theorem beat_bucketed_reports_witness :
    (∀ t ∈ c8topics, t.repIds.length = t.repCaps.length) ∧
    ((∀ out, (carrierBeat c8topics).sends = some out →
      (out.map Prod.fst).Nodup ∧
      (∀ n, n ∈ out.map Prod.fst ↔ ∃ t ∈ c8topics, n ∈ t.repIds) ∧
      (∀ n rep, (n, rep) ∈ out → rep.pairs = specNodePairs c8topics n)) ∧
    (carrierBeat c8topics).cycled = c8topics.map BeatTopic.cycle ∧
    (∀ t ∈ (carrierBeat c8topics).cycled, ∀ c ∈ t.counters, c = 0) ∧
    (carrierBeat c8topics).resubscribed =
      (c8topics.filter (fun t => t.parent.isNone)).map (fun t => t.self)) :=
  ⟨by decide, beat_bucketed_reports c8topics (by decide)⟩

end IrisCore
